import Mathlib

/-!
Shallow embedding of the QueueCLI job-queue core:
`src/models/job.py`, `src/storage/database.py`, `src/workers/worker.py`
and the `dlq retry` / `enqueue` commands of `src/cli/main.py`.

Timestamps are modelled as `Nat` (seconds), `priority` as `Int`
(Python int), the job table as a `List Job` (one record per row,
keyed by `id`).  `math.pow(base, attempts)` on integer inputs equals
the integer power, so the backoff delay is `base ^ attempts : Nat`.
-/

namespace QueueCLI

/-- `JobState` enum of `src/models/job.py`. -/
inductive JobState where
  | pending
  | processing
  | completed
  | failed
  | dead
deriving DecidableEq, Repr

/-- The `Job` / `JobModel` record (`src/models/job.py`,
`src/storage/database.py`): one row of the `jobs` table. -/
structure Job where
  id : String
  command : String
  state : JobState
  attempts : Nat
  max_retries : Nat
  created_at : Nat
  updated_at : Nat
  next_retry_at : Option Nat
  last_error : Option String
  run_at : Option Nat
  priority : Int
  output : Option String
  timeout : Option Nat
deriving DecidableEq, Repr

/-- The persistent store: the rows of the `jobs` table. -/
abbrev Store := List Job

/-- A fresh `Job` as built by `Job(**job_data)` in `src/models/job.py`
from the spec-level `Enqueue` arguments (command, max_retries, run_at,
priority, timeout): pydantic defaults give `state=PENDING`, `attempts=0`,
`next_retry_at=None`, `last_error=None`, `output=None`. -/
def Job.new (id : String) (now : Nat) (command : String) (mr : Nat)
    (ra : Option Nat) (pr : Int) (tmo : Option Nat) : Job :=
  { id := id, command := command, state := JobState.pending, attempts := 0,
    max_retries := mr, created_at := now, updated_at := now,
    next_retry_at := none, last_error := none, run_at := ra,
    priority := pr, output := none, timeout := tmo }

/-- `Storage.add_job` as invoked from the CLI `enqueue` command:
insert the new row into the table. -/
def enqueue (id : String) (now : Nat) (command : String) (mr : Nat)
    (ra : Option Nat) (pr : Int) (tmo : Option Nat) (s : Store) : Store :=
  s ++ [Job.new id now command mr ra pr tmo]

/-- `Storage.get_job`: first row whose `id` matches, or `None`. -/
def get_job (s : Store) (jid : String) : Option Job :=
  match s with
  | [] => none
  | j :: rest => if j.id = jid then some j else get_job rest jid

/-- `Storage.update_job jid updates`: apply the partial patch `f` to
the row(s) whose `id` is `jid` (the primary key makes it unique). -/
def update_job (s : Store) (jid : String) (f : Job → Job) : Store :=
  s.map (fun j => if j.id = jid then f j else j)

/-- Eligibility filter of `Storage.get_next_pending_job`:
`state == PENDING` and (`run_at` is NULL or `run_at <= now`). -/
def isEligible (now : Nat) (j : Job) : Bool :=
  decide (j.state = JobState.pending) &&
    (match j.run_at with
     | none => true
     | some t => decide (t ≤ now))

/-- The `ORDER BY priority DESC, created_at ASC` comparison: `a` sorts
strictly before `b`. -/
def beats (a b : Job) : Bool :=
  decide (b.priority < a.priority ∨
    (a.priority = b.priority ∧ a.created_at < b.created_at))

/-- `.first()` over the ordered result set: the earliest row (in table
order) that no other row strictly beats. -/
def selectBest (best : Job) : List Job → Job
  | [] => best
  | j :: rest => if beats j best then selectBest j rest else selectBest best rest

/-- `Storage.get_next_pending_job`: filter eligible pending rows and
return the first under `ORDER BY priority DESC, created_at ASC`,
or `None`.  This is a pure read: no row is modified. -/
def get_next_pending_job (now : Nat) (s : Store) : Option Job :=
  match s.filter (isEligible now) with
  | [] => none
  | j :: rest => some (selectBest j rest)

/-- One row of `Storage.cleanup_stale_jobs`: a `PROCESSING` row becomes
`DEAD` if `attempts >= max_retries`, else `FAILED`; only `state` is
assigned. -/
def reapOne (j : Job) : Job :=
  if j.state = JobState.processing then
    (if j.max_retries ≤ j.attempts then { j with state := JobState.dead }
     else { j with state := JobState.failed })
  else j

/-- `Storage.cleanup_stale_jobs`: sweep every row. -/
def cleanup_stale_jobs (s : Store) : Store :=
  s.map reapOne

/-- `Worker.calculate_next_retry`: `now + base_delay ^ attempts`. -/
def calculate_next_retry (base_delay now attempts : Nat) : Nat :=
  now + base_delay ^ attempts

/-- Outcome of the subprocess run inside `Worker.execute_command`:
a normal exit, `subprocess.TimeoutExpired`, or an exception raised
while spawning. -/
inductive ExecOutcome where
  | exited (code : Int) (stdout stderr : String)
  | timedOut
  | spawnError (msg : String)
deriving DecidableEq, Repr

/-- `Worker.execute_command`: returns `(returncode, stdout, stderr)`;
a timeout yields `(-1, "", "Job timed out")` and any spawn exception
yields `(-1, "", str(e))`.  Total by construction. -/
def execute_command (o : ExecOutcome) : Int × String × String :=
  match o with
  | ExecOutcome.exited code out err => (code, out, err)
  | ExecOutcome.timedOut => (-1, "", "Job timed out")
  | ExecOutcome.spawnError msg => (-1, "", msg)

/-- Python `stderr or "Unknown error"`: the empty string is falsy. -/
def errOrUnknown (err : String) : String :=
  if err = "" then "Unknown error" else err

/-- The first `update_job` of `Worker.process_job`: mark the claimed
job `PROCESSING` and set `attempts = job.attempts + 1` from the
snapshot `job` the worker holds. -/
def markProcessing (now : Nat) (job : Job) (s : Store) : Store :=
  update_job s job.id (fun j =>
    { j with state := JobState.processing, attempts := job.attempts + 1,
             updated_at := now })

/-- `Worker.process_job job` after the claimed job was read as `job`:
mark it processing, run the command, then write the outcome.
Exit code 0 → `COMPLETED` with `output = stdout.strip()`.
Otherwise with `a = job.attempts + 1`: if `a >= max_retries` →
`DEAD` with `last_error = stderr or "Unknown error"`, `output = stdout`;
else → `FAILED` with `attempts = a`, `last_error`,
`next_retry_at = calculate_next_retry`, `output = stdout`. -/
def process_job (base_delay now : Nat) (job : Job) (o : ExecOutcome)
    (s : Store) : Store :=
  let s1 := markProcessing now job s
  match execute_command o with
  | (code, out, err) =>
    if code = 0 then
      update_job s1 job.id (fun j =>
        { j with state := JobState.completed, output := some out.trim,
                 updated_at := now })
    else
      let a := job.attempts + 1
      if job.max_retries ≤ a then
        update_job s1 job.id (fun j =>
          { j with state := JobState.dead,
                   last_error := some (errOrUnknown err),
                   output := some out, updated_at := now })
      else
        update_job s1 job.id (fun j =>
          { j with state := JobState.failed, attempts := a,
                   last_error := some (errOrUnknown err),
                   next_retry_at := some (calculate_next_retry base_delay now a),
                   output := some out, updated_at := now })

/-- Result tag of the CLI `dlq retry` command. -/
inductive DlqStatus where
  | success
  | notFound
  | notInDLQ
deriving DecidableEq, Repr

/-- `dlq_retry` of `src/cli/main.py`: look the job up; report not-found
or not-in-DLQ without touching the store; else set `state=PENDING`,
`attempts=0`, `last_error=None` (note: `next_retry_at` is not in the
update dictionary). -/
def dlq_retry (now : Nat) (s : Store) (jid : String) : Store × DlqStatus :=
  match get_job s jid with
  | none => (s, DlqStatus.notFound)
  | some job =>
    if job.state = JobState.dead then
      (update_job s jid (fun j =>
        { j with state := JobState.pending, attempts := 0,
                 last_error := none, updated_at := now }),
       DlqStatus.success)
    else (s, DlqStatus.notInDLQ)

/-- Fixture: an eligible low-priority job. -/
def wJob1 : Job := Job.new "j1" 5 "echo a" 3 none 1 none

/-- Fixture: the eligible top-priority job. -/
def wJob2 : Job := Job.new "j2" 9 "echo b" 3 none 5 none

/-- Fixture: a scheduled job whose `run_at` has not elapsed at time 10. -/
def wJob3 : Job := Job.new "j3" 1 "echo c" 3 (some 20) 7 none

/-- Fixture: a high-priority job that is not pending. -/
def wJob4 : Job := { Job.new "j4" 2 "echo d" 3 none 9 none with
  state := JobState.failed }

/-- Fixture store for the selection claims. -/
def wStore : Store := [wJob1, wJob4, wJob2, wJob3]

/-- Fixture: a dead job for the DLQ claims. -/
def wJobDead : Job := { Job.new "d1" 4 "exit 1" 2 none 0 none with
  state := JobState.dead, attempts := 2, last_error := some "boom" }

/-! ### C6: the stale-job reaper -/
/-- Fixture: an orphaned processing job below its retry ceiling. -/
def wJobProc : Job := { Job.new "p1" 3 "echo p" 3 none 0 none with
  state := JobState.processing, attempts := 1 }

/-! ### C10: spawn errors and timeouts flow through the outcome branch -/
/-- Fixture: a pending job one failure away from its retry ceiling. -/
def wJobMax : Job := { Job.new "m1" 0 "boom" 3 none 0 none with
  attempts := 2 }

/-! ### C3: failure handling and escalation to the DLQ -/
/-- Net effect of one failing `process_job` cycle on the job's row
(non-zero exit with outputs `out`, `err`): the processing update wrote
`attempts + 1`, then the outcome update wrote `dead` when the new
attempt count reaches `max_retries`, else `failed` with the backoff
deadline. -/
def fail_step (base now : Nat) (out err : String) (j : Job) : Job :=
  if j.max_retries ≤ j.attempts + 1 then
    { j with state := JobState.dead, attempts := j.attempts + 1,
             last_error := some (errOrUnknown err), output := some out,
             updated_at := now }
  else
    { j with state := JobState.failed, attempts := j.attempts + 1,
             last_error := some (errOrUnknown err),
             next_retry_at := some (calculate_next_retry base now (j.attempts + 1)),
             output := some out, updated_at := now }

/-- `n` consecutive failing execution cycles applied to one job row. -/
def consecutiveFailures (base now : Nat) (out err : String) :
    Nat → Job → Job
  | 0, j => j
  | n + 1, j => fail_step base now out err (consecutiveFailures base now out err n j)

/-- Fixture: a pending job with `max_retries = 0`. -/
def wJobZero : Job := Job.new "z1" 0 "exit 1" 0 none 0 none

/-- Fixture: a pending job with `max_retries = 2`. -/
def wJobTwo : Job := Job.new "t1" 0 "exit 1" 2 none 0 none

/-! ### C1: the claim path is two store operations, not one -/
/-- Shared state of two workers racing on the claim path: the store
plus each worker's claimed snapshot (the result returned by its
`get_next_pending_job` read). -/
structure RaceState where
  store : Store
  claimed1 : Option Job
  claimed2 : Option Job
deriving DecidableEq, Repr

/-- An interleaving step: a worker performs either its claim read
(`get_next_pending_job`, a pure SELECT in its own session) or its
claim write (the `markProcessing` update at the top of `process_job`)
— exactly the two separate store operations of the code's claim path. -/
inductive RaceStep where
  | read1
  | read2
  | write1
  | write2
deriving DecidableEq, Repr

def raceStep (now : Nat) (st : RaceState) : RaceStep → RaceState
  | RaceStep.read1 => { st with claimed1 := get_next_pending_job now st.store }
  | RaceStep.read2 => { st with claimed2 := get_next_pending_job now st.store }
  | RaceStep.write1 =>
    match st.claimed1 with
    | none => st
    | some j => { st with store := markProcessing now j st.store }
  | RaceStep.write2 =>
    match st.claimed2 with
    | none => st
    | some j => { st with store := markProcessing now j st.store }

/-- A schedule of interleaved worker steps acting on the shared
store, as the threads of `WorkerManager.start_workers` do. -/
def runRace (now : Nat) (steps : List RaceStep) (st : RaceState) : RaceState :=
  steps.foldl (raceStep now) st

/-- Fixture: the single eligible pending job two workers race for. -/
def wJobRace : Job := Job.new "r1" 0 "echo r" 3 none 0 none

/-- Fixture: a failed job whose retry deadline has elapsed. -/
def wJobFailed : Job := { Job.new "f1" 0 "exit 1" 3 none 0 none with
  state := JobState.failed, attempts := 1, next_retry_at := some 5,
  last_error := some "err" }

/-- One SERIALIZED core operation on the store: enqueue a fresh job
(uuid ids are fresh; the primary key rejects duplicates), a complete
worker cycle on a job returned by `get_next_pending_job` (the worker
loop's only source of jobs), the startup reaper, or the CLI DLQ
requeue.  `work_op` deliberately runs a worker's claim read and both
of its writes as one step with no interference: this is an
idealization, for the code performs them as separate store operations
that can interleave (the race trace of the two-worker model), and
under that interleaving the `next_retry_at` invariant below fails. -/
inductive Step : Store → Store → Prop where
  | enqueue_op (id : String) (now : Nat) (cmd : String) (mr : Nat)
      (ra : Option Nat) (pr : Int) (tmo : Option Nat) (s : Store)
      (h : get_job s id = none) :
      Step s (enqueue id now cmd mr ra pr tmo s)
  | work_op (base now : Nat) (o : ExecOutcome) (j : Job) (s : Store)
      (h : get_next_pending_job now s = some j) :
      Step s (process_job base now j o s)
  | reap_op (s : Store) : Step s (cleanup_stale_jobs s)
  | dlq_op (now : Nat) (jid : String) (s : Store) :
      Step s (dlq_retry now s jid).1

/-- Stores reachable from the empty table through serialized core
operations (no two overlapping worker cycles). -/
def Reachable (s : Store) : Prop := Relation.ReflTransGen Step [] s

/-- The store invariant: ids are unique (primary key) and
`next_retry_at` is set only on `failed` rows. -/
def Inv (s : Store) : Prop :=
  (s.map Job.id).Nodup ∧
  ∀ j ∈ s, j.next_retry_at ≠ none → j.state = JobState.failed

/-- Fixture: the job enqueued on the reachable witness store. -/
def wJobA : Job := Job.new "a1" 0 "exit 1" 3 none 0 none

/-- Fixture: a reachable store — enqueue one job, then one failing
worker cycle, leaving a `failed` row with `next_retry_at` set. -/
def wStoreReach : Store :=
  process_job 2 10 wJobA (ExecOutcome.exited 1 "" "boom")
    (enqueue "a1" 0 "exit 1" 3 none 0 none [])

/-- Fixture: the pending job two overlapping worker cycles race on. -/
def wJobC : Job := Job.new "c1" 0 "echo c" 3 none 0 none

/-! ### Theorems -/

/-! ### Ordering facts about the `ORDER BY` comparison -/
theorem beats_iff (a b : Job) : beats a b = true ↔
    (b.priority < a.priority ∨
      (a.priority = b.priority ∧ a.created_at < b.created_at)) := by
  simp [beats]

theorem beats_irrefl (a : Job) : beats a a = false := by
  rw [Bool.eq_false_iff]
  intro h
  rw [beats_iff] at h
  omega

theorem beats_trans {a b c : Job} (h1 : beats a b = true)
    (h2 : beats b c = true) : beats a c = true := by
  rw [beats_iff] at h1 h2 ⊢
  omega

theorem beats_sweep {a c : Job} (b : Job) (h : beats a c = true) :
    beats a b = true ∨ beats b c = true := by
  rw [beats_iff] at h ⊢
  rw [beats_iff]
  omega

theorem selectBest_mem (b : Job) (l : List Job) :
    selectBest b l = b ∨ selectBest b l ∈ l := by
  induction l generalizing b with
  | nil => left; rfl
  | cons j rest ih =>
    simp only [selectBest]
    split
    · rcases ih j with h | h
      · right; simp [h]
      · right; simp [h]
    · rcases ih b with h | h
      · left; exact h
      · right; simp [h]

theorem selectBest_not_beaten (b : Job) (l : List Job) :
    ∀ k, (k = b ∨ k ∈ l) → beats k (selectBest b l) = false := by
  induction l generalizing b with
  | nil =>
    intro k hk
    rcases hk with rfl | hk
    · exact beats_irrefl k
    · simp at hk
  | cons j rest ih =>
    intro k hk
    simp only [selectBest]
    by_cases hjb : beats j b = true
    · rw [if_pos hjb]
      rcases hk with heq | hk
      · -- the dropped head `b`: `j` beats it, and nothing beats the result
        rw [heq, Bool.eq_false_iff]
        intro hbr
        have hjr := beats_trans hjb hbr
        have h0 := ih j j (Or.inl rfl)
        rw [hjr] at h0
        exact Bool.noConfusion h0
      · rcases List.mem_cons.mp hk with heq | hk
        · rw [heq]; exact ih j j (Or.inl rfl)
        · exact ih j k (Or.inr hk)
    · rw [if_neg hjb]
      rw [Bool.not_eq_true] at hjb
      rcases hk with heq | hk
      · rw [heq]; exact ih b b (Or.inl rfl)
      · rcases List.mem_cons.mp hk with heq | hk
        · -- the dropped candidate `j`: it did not beat `b`, which the
          -- result is at least as good as
          rw [heq, Bool.eq_false_iff]
          intro hjr
          rcases beats_sweep b hjr with h | h
          · rw [h] at hjb; exact Bool.noConfusion hjb
          · have h0 := ih b b (Or.inl rfl)
            rw [h] at h0
            exact Bool.noConfusion h0
        · exact ih b k (Or.inr hk)

theorem isEligible_iff (now : Nat) (j : Job) : isEligible now j = true ↔
    (j.state = JobState.pending ∧ ∀ t, j.run_at = some t → t ≤ now) := by
  unfold isEligible
  rw [Bool.and_eq_true, decide_eq_true_iff]
  constructor
  · rintro ⟨hs, hr⟩
    refine ⟨hs, ?_⟩
    intro t ht
    rw [ht] at hr
    simpa using hr
  · rintro ⟨hs, hr⟩
    refine ⟨hs, ?_⟩
    cases hra : j.run_at with
    | none => rfl
    | some t => simpa using hr t hra

theorem get_next_pending_job_some {now : Nat} {s : Store} {j : Job}
    (h : get_next_pending_job now s = some j) :
    j ∈ s ∧ isEligible now j = true ∧
      ∀ k ∈ s, isEligible now k = true → beats k j = false := by
  unfold get_next_pending_job at h
  cases hf : s.filter (isEligible now) with
  | nil => rw [hf] at h; exact absurd h (by simp)
  | cons b rest =>
    rw [hf] at h
    have hj : j = selectBest b rest := by
      simpa using h.symm
    have hmem : j ∈ b :: rest := by
      rw [hj]
      rcases selectBest_mem b rest with h' | h'
      · rw [h']; exact List.mem_cons_self b rest
      · exact List.mem_cons_of_mem b h'
    have hjf : j ∈ s.filter (isEligible now) := by rw [hf]; exact hmem
    have hjs := List.mem_filter.mp hjf
    refine ⟨hjs.1, hjs.2, ?_⟩
    intro k hk hke
    have hkf : k ∈ s.filter (isEligible now) := List.mem_filter.mpr ⟨hk, hke⟩
    rw [hf] at hkf
    rw [hj]
    rcases List.mem_cons.mp hkf with rfl | hkr
    · exact selectBest_not_beaten k rest k (Or.inl rfl)
    · exact selectBest_not_beaten b rest k (Or.inr hkr)

theorem get_next_pending_job_none {now : Nat} {s : Store} :
    get_next_pending_job now s = none ↔
      ∀ j ∈ s, isEligible now j = false := by
  unfold get_next_pending_job
  cases hf : s.filter (isEligible now) with
  | nil =>
    simp only [true_iff]
    intro j hj
    by_contra hc
    rw [Bool.not_eq_false] at hc
    have hmem : j ∈ s.filter (isEligible now) := List.mem_filter.mpr ⟨hj, hc⟩
    rw [hf] at hmem
    simp at hmem
  | cons b rest =>
    simp only [reduceCtorEq, false_iff]
    intro hall
    have hb : b ∈ s.filter (isEligible now) := by
      rw [hf]; exact List.mem_cons_self b rest
    have hb' := List.mem_filter.mp hb
    rw [hall b hb'.1] at hb'
    exact Bool.noConfusion hb'.2

theorem beats_eq_false_iff (a b : Job) : beats a b = false ↔
    (a.priority ≤ b.priority ∧
      (a.priority = b.priority → b.created_at ≤ a.created_at)) := by
  rw [Bool.eq_false_iff, Ne, beats_iff]
  constructor
  · intro h
    push_neg at h
    omega
  · intro h
    intro hc
    omega

/-- C2: `get_next_pending_job` considers only jobs in `pending` state
whose `run_at` is unset or elapsed; among those it returns one of top
priority, ties broken by earliest `created_at`; and it returns `none`
exactly when no eligible job exists. -/
theorem claimNext_selection (now : Nat) (s : Store) :
    (∀ j, get_next_pending_job now s = some j →
      j ∈ s ∧ j.state = JobState.pending ∧
      (∀ t, j.run_at = some t → t ≤ now) ∧
      (∀ k ∈ s, isEligible now k = true →
        k.priority ≤ j.priority ∧
          (k.priority = j.priority → j.created_at ≤ k.created_at))) ∧
    (get_next_pending_job now s = none ↔
      ∀ j ∈ s, isEligible now j = false) := by
  refine ⟨?_, get_next_pending_job_none⟩
  intro j hj
  obtain ⟨hmem, helig, hbest⟩ := get_next_pending_job_some hj
  obtain ⟨hpend, hrun⟩ := (isEligible_iff now j).mp helig
  refine ⟨hmem, hpend, hrun, ?_⟩
  intro k hk hke
  exact (beats_eq_false_iff k j).mp (hbest k hk hke)

theorem claimNext_selection_witness :
    wJob2 ∈ wStore ∧ wJob2.state = JobState.pending ∧
      (∀ t, wJob2.run_at = some t → t ≤ 10) ∧
      (∀ k ∈ wStore, isEligible 10 k = true →
        k.priority ≤ wJob2.priority ∧
          (k.priority = wJob2.priority → wJob2.created_at ≤ k.created_at)) :=
  (claimNext_selection 10 wStore).1 wJob2 (by decide)

/-! ### Lookup and update lemmas -/
theorem get_job_update_job (jid : String) (f : Job → Job)
    (hf : ∀ j, (f j).id = j.id) (s : Store) :
    get_job (update_job s jid f) jid = (get_job s jid).map f := by
  induction s with
  | nil => rfl
  | cons a l ih =>
    unfold update_job at *
    rw [List.map_cons]
    simp only [get_job]
    by_cases ha : a.id = jid
    · simp only [if_pos ha]
      rw [hf]
      simp only [if_pos ha]
      rfl
    · simp only [if_neg ha]
      exact ih

theorem mem_update_job {k : Job} {s : Store} {jid : String} {f : Job → Job}
    (h : k ∈ update_job s jid f) :
    ∃ j ∈ s, k = if j.id = jid then f j else j := by
  obtain ⟨j, hj, hk⟩ := List.mem_map.mp h
  exact ⟨j, hj, hk.symm⟩

theorem update_job_update_job (s : Store) (jid : String) (f g : Job → Job)
    (hf : ∀ j, (f j).id = j.id) :
    update_job (update_job s jid f) jid g =
      update_job s jid (fun j => g (f j)) := by
  unfold update_job
  rw [List.map_map]
  apply List.map_congr_left
  intro j _
  by_cases hj : j.id = jid
  · simp only [Function.comp, if_pos hj]
    rw [if_pos]
    rw [hf]
    exact hj
  · simp only [Function.comp, if_neg hj]

/-! ### C7: DLQ requeue -/
/-- C7: `dlq_retry` reports not-found for an absent id and
not-in-DLQ for a non-dead job, leaving the store untouched in both
cases; on a dead job it succeeds and the record becomes `pending`
with `attempts = 0` and `last_error = none`. -/
theorem dlqRequeue_behavior (now : Nat) (s : Store) (jid : String) :
    (get_job s jid = none → dlq_retry now s jid = (s, DlqStatus.notFound)) ∧
    (∀ j, get_job s jid = some j → j.state ≠ JobState.dead →
      dlq_retry now s jid = (s, DlqStatus.notInDLQ)) ∧
    (∀ j, get_job s jid = some j → j.state = JobState.dead →
      (dlq_retry now s jid).2 = DlqStatus.success ∧
      get_job (dlq_retry now s jid).1 jid =
        some { j with state := JobState.pending, attempts := 0,
                      last_error := none, updated_at := now }) := by
  refine ⟨?_, ?_, ?_⟩
  · intro h
    simp only [dlq_retry, h]
  · intro j hj hdead
    simp only [dlq_retry, hj]
    rw [if_neg hdead]
  · intro j hj hdead
    have hs : dlq_retry now s jid =
        (update_job s jid (fun j =>
          { j with state := JobState.pending, attempts := 0,
                   last_error := none, updated_at := now }),
         DlqStatus.success) := by
      simp only [dlq_retry, hj, if_pos hdead]
    rw [hs]
    refine ⟨rfl, ?_⟩
    rw [get_job_update_job jid (fun j =>
      { j with state := JobState.pending, attempts := 0,
               last_error := none, updated_at := now }) (fun k => rfl) s, hj]
    rfl

theorem dlqRequeue_behavior_witness :
    (dlq_retry 10 [wJobDead] "d1").2 = DlqStatus.success ∧
      get_job (dlq_retry 10 [wJobDead] "d1").1 "d1" =
        some { wJobDead with state := JobState.pending, attempts := 0,
                             last_error := none, updated_at := 10 } :=
  (dlqRequeue_behavior 10 [wJobDead] "d1").2.2 wJobDead (by decide) rfl

/-! ### C9: enqueue with an empty command -/
/-- C9 counterexample: enqueueing the empty command against the empty
store does not fail; it creates a pending record with `command = ""`. -/
theorem enqueue_empty_counterexample :
    (enqueue "j0" 0 "" 3 none 0 none []).length = 1 ∧
      ∃ j ∈ enqueue "j0" 0 "" 3 none 0 none [],
        j.command = "" ∧ j.state = JobState.pending := by
  decide

/-- C9 amended: no emptiness validation of `command` exists; enqueueing
the empty string always appends a pending record with `command = ""`. -/
theorem enqueue_empty_creates_job (id : String) (now mr : Nat)
    (ra : Option Nat) (pr : Int) (tmo : Option Nat) (s : Store) :
    Job.new id now "" mr ra pr tmo ∈ enqueue id now "" mr ra pr tmo s ∧
    (enqueue id now "" mr ra pr tmo s).length = s.length + 1 ∧
    (Job.new id now "" mr ra pr tmo).command = "" ∧
    (Job.new id now "" mr ra pr tmo).state = JobState.pending := by
  refine ⟨?_, by simp [enqueue], rfl, rfl⟩
  simp [enqueue]

/-- C6 counterexample: the reaper moves this processing job to
`failed`, but computes no `next_retry_at`: the field stays `none`. -/
theorem reapStale_counterexample :
    cleanup_stale_jobs [wJobProc] =
      [{ wJobProc with state := JobState.failed }] ∧
    (({ wJobProc with state := JobState.failed } : Job)).next_retry_at = none := by
  exact ⟨rfl, rfl⟩

/-- C6 amended: `cleanup_stale_jobs` sends a processing row with
`attempts >= max_retries` to `dead`, any other processing row to
`failed` with `next_retry_at` left untouched (never computed), and
leaves rows in other states unchanged. -/
theorem reapStale_behavior (s : Store) (j : Job) (hj : j ∈ s) :
    (j.state = JobState.processing → j.max_retries ≤ j.attempts →
      { j with state := JobState.dead } ∈ cleanup_stale_jobs s) ∧
    (j.state = JobState.processing → ¬ j.max_retries ≤ j.attempts →
      { j with state := JobState.failed } ∈ cleanup_stale_jobs s ∧
      ({ j with state := JobState.failed } : Job).next_retry_at =
        j.next_retry_at) ∧
    (j.state ≠ JobState.processing → j ∈ cleanup_stale_jobs s) := by
  unfold cleanup_stale_jobs
  refine ⟨?_, ?_, ?_⟩
  · intro hp hm
    have : reapOne j = { j with state := JobState.dead } := by
      unfold reapOne
      rw [if_pos hp, if_pos hm]
    exact this ▸ List.mem_map_of_mem reapOne hj
  · intro hp hm
    have : reapOne j = { j with state := JobState.failed } := by
      unfold reapOne
      rw [if_pos hp, if_neg hm]
    exact ⟨this ▸ List.mem_map_of_mem reapOne hj, rfl⟩
  · intro hp
    have : reapOne j = j := by
      unfold reapOne
      rw [if_neg hp]
    exact this ▸ List.mem_map_of_mem reapOne hj

theorem reapStale_behavior_witness :
    { wJobProc with state := JobState.failed } ∈
        cleanup_stale_jobs [wJobProc] ∧
      ({ wJobProc with state := JobState.failed } : Job).next_retry_at =
        wJobProc.next_retry_at :=
  (reapStale_behavior [wJobProc] wJobProc (by decide)).2.1 rfl (by decide)

/-! ### C8: the success path of `process_job` -/
/-- C8: a command exiting 0 drives the claimed pending job through
`pending → processing → completed`; starting from `attempts = 0` the
processing update writes `attempts = 1` and the final record is
`completed` with `output` the trimmed stdout and `attempts = 1`. -/
theorem workerSuccess (base now : Nat) (j : Job) (out err : String)
    (s : Store) (hgj : get_job s j.id = some j)
    (hpend : j.state = JobState.pending) (ha : j.attempts = 0) :
    j.state = JobState.pending ∧
    get_job (markProcessing now j s) j.id =
      some { j with state := JobState.processing, attempts := 1,
                    updated_at := now } ∧
    get_job (process_job base now j (ExecOutcome.exited 0 out err) s) j.id =
      some { j with state := JobState.completed, attempts := 1,
                    output := some out.trim, updated_at := now } := by
  have hproc : get_job (markProcessing now j s) j.id =
      some { j with state := JobState.processing, attempts := j.attempts + 1,
                    updated_at := now } := by
    unfold markProcessing
    rw [get_job_update_job j.id (fun k =>
      { k with state := JobState.processing, attempts := j.attempts + 1,
               updated_at := now }) (fun k => rfl) s, hgj]
    rfl
  refine ⟨hpend, by rw [hproc, ha], ?_⟩
  have hpj : process_job base now j (ExecOutcome.exited 0 out err) s =
      update_job (markProcessing now j s) j.id (fun k =>
        { k with state := JobState.completed, output := some out.trim,
                 updated_at := now }) := by
    simp only [process_job, execute_command, if_true]
  rw [hpj, get_job_update_job j.id (fun k =>
      { k with state := JobState.completed, output := some out.trim,
               updated_at := now }) (fun k => rfl), hproc, ha]
  rfl

theorem workerSuccess_witness :
    get_job (process_job 2 10 wJob1 (ExecOutcome.exited 0 " hello \n" "")
        [wJob1]) wJob1.id =
      some { wJob1 with state := JobState.completed, attempts := 1,
                        output := some (" hello \n" : String).trim,
                        updated_at := 10 } :=
  (workerSuccess 2 10 wJob1 " hello \n" "" [wJob1] (by decide) rfl rfl).2.2

/-- C10: `execute_command` is total over every subprocess outcome and
converts a timeout or a spawn exception into the triple
`(-1, "", message)`; hence a command that cannot be spawned is handled
by the same non-zero-exit branch of `process_job` as an exited command,
and with the retry ceiling reached the job transitions to `dead`. -/
theorem execHandling (base now : Nat) (j : Job) (m : String) (s : Store)
    (hgj : get_job s j.id = some j)
    (hmax : j.max_retries ≤ j.attempts + 1) :
    execute_command (ExecOutcome.spawnError m) = (-1, "", m) ∧
    execute_command ExecOutcome.timedOut = (-1, "", "Job timed out") ∧
    process_job base now j (ExecOutcome.spawnError m) s =
      process_job base now j (ExecOutcome.exited (-1) "" m) s ∧
    get_job (process_job base now j (ExecOutcome.spawnError m) s) j.id =
      some { j with state := JobState.dead, attempts := j.attempts + 1,
                    last_error := some (errOrUnknown m), output := some "",
                    updated_at := now } := by
  refine ⟨rfl, rfl, rfl, ?_⟩
  have hproc : get_job (markProcessing now j s) j.id =
      some { j with state := JobState.processing, attempts := j.attempts + 1,
                    updated_at := now } := by
    unfold markProcessing
    rw [get_job_update_job j.id (fun k =>
      { k with state := JobState.processing, attempts := j.attempts + 1,
               updated_at := now }) (fun k => rfl) s, hgj]
    rfl
  have hpj : process_job base now j (ExecOutcome.spawnError m) s =
      update_job (markProcessing now j s) j.id (fun k =>
        { k with state := JobState.dead,
                 last_error := some (errOrUnknown m),
                 output := some "", updated_at := now }) := by
    simp only [process_job, execute_command]
    rw [if_neg (by decide : ¬ (-1 : Int) = 0), if_pos hmax]
  rw [hpj, get_job_update_job j.id (fun k =>
      { k with state := JobState.dead,
               last_error := some (errOrUnknown m),
               output := some "", updated_at := now }) (fun k => rfl), hproc]
  rfl

theorem execHandling_witness :
    get_job (process_job 2 10 wJobMax
        (ExecOutcome.spawnError "No such file or directory") [wJobMax])
        wJobMax.id =
      some { wJobMax with state := JobState.dead, attempts := 3,
                          last_error :=
                            some (errOrUnknown "No such file or directory"),
                          output := some "", updated_at := 10 } :=
  (execHandling 2 10 wJobMax "No such file or directory" [wJobMax]
    (by decide) (by decide)).2.2.2

theorem process_job_fail (base now : Nat) (j : Job) (code : Int)
    (out err : String) (s : Store) (hc : ¬ code = 0)
    (hgj : get_job s j.id = some j) :
    get_job (process_job base now j (ExecOutcome.exited code out err) s) j.id =
      some (fail_step base now out err j) := by
  have hproc : get_job (markProcessing now j s) j.id =
      some { j with state := JobState.processing, attempts := j.attempts + 1,
                    updated_at := now } := by
    unfold markProcessing
    rw [get_job_update_job j.id (fun k =>
      { k with state := JobState.processing, attempts := j.attempts + 1,
               updated_at := now }) (fun k => rfl) s, hgj]
    rfl
  by_cases hmax : j.max_retries ≤ j.attempts + 1
  · have hpj : process_job base now j (ExecOutcome.exited code out err) s =
        update_job (markProcessing now j s) j.id (fun k =>
          { k with state := JobState.dead,
                   last_error := some (errOrUnknown err),
                   output := some out, updated_at := now }) := by
      simp only [process_job, execute_command]
      rw [if_neg hc, if_pos hmax]
    rw [hpj, get_job_update_job j.id (fun k =>
        { k with state := JobState.dead,
                 last_error := some (errOrUnknown err),
                 output := some out, updated_at := now }) (fun k => rfl), hproc]
    unfold fail_step
    rw [if_pos hmax]
    rfl
  · have hpj : process_job base now j (ExecOutcome.exited code out err) s =
        update_job (markProcessing now j s) j.id (fun k =>
          { k with state := JobState.failed, attempts := j.attempts + 1,
                   last_error := some (errOrUnknown err),
                   next_retry_at :=
                     some (calculate_next_retry base now (j.attempts + 1)),
                   output := some out, updated_at := now }) := by
      simp only [process_job, execute_command]
      rw [if_neg hc, if_neg hmax]
    rw [hpj, get_job_update_job j.id (fun k =>
        { k with state := JobState.failed, attempts := j.attempts + 1,
                 last_error := some (errOrUnknown err),
                 next_retry_at :=
                   some (calculate_next_retry base now (j.attempts + 1)),
                 output := some out, updated_at := now }) (fun k => rfl), hproc]
    unfold fail_step
    rw [if_neg hmax]
    rfl

theorem consecutiveFailures_counts (base now : Nat) (out err : String)
    (n : Nat) (j : Job) :
    (consecutiveFailures base now out err n j).attempts = j.attempts + n ∧
    (consecutiveFailures base now out err n j).max_retries = j.max_retries := by
  induction n with
  | zero => exact ⟨rfl, rfl⟩
  | succ m ih =>
    unfold consecutiveFailures fail_step
    by_cases h : (consecutiveFailures base now out err m j).max_retries ≤
        (consecutiveFailures base now out err m j).attempts + 1
    · rw [if_pos h]
      refine ⟨?_, ?_⟩
      · show (consecutiveFailures base now out err m j).attempts + 1 =
          j.attempts + (m + 1)
        rw [ih.1]
        omega
      · exact ih.2
    · rw [if_neg h]
      refine ⟨?_, ?_⟩
      · show (consecutiveFailures base now out err m j).attempts + 1 =
          j.attempts + (m + 1)
        rw [ih.1]
        omega
      · exact ih.2

/-- C3 amended: a non-zero exit (or timeout) leaves the row as
`fail_step` describes — `dead` with `last_error` recorded when the
post-increment attempt count reaches `max_retries`, else `failed` with
`last_error` and `next_retry_at = now + base_delay ^ attempts` — and
for `max_retries = N ≥ 1`, after `N` consecutive execution failures the
row is `dead` with `attempts = N`. -/
theorem failureEscalation (base now N : Nat) (j : Job) (code : Int)
    (out err : String) (s : Store) (hgj : get_job s j.id = some j)
    (hc : ¬ code = 0) (hN : 1 ≤ N) (ha : j.attempts = 0)
    (hm : j.max_retries = N) :
    get_job (process_job base now j (ExecOutcome.exited code out err) s) j.id =
      some (fail_step base now out err j) ∧
    (fail_step base now out err j).state =
      (if j.max_retries ≤ j.attempts + 1 then JobState.dead
       else JobState.failed) ∧
    (¬ j.max_retries ≤ j.attempts + 1 →
      (fail_step base now out err j).next_retry_at =
          some (now + base ^ (j.attempts + 1)) ∧
        (fail_step base now out err j).last_error =
          some (errOrUnknown err)) ∧
    (consecutiveFailures base now out err N j).state = JobState.dead ∧
    (consecutiveFailures base now out err N j).attempts = N := by
  refine ⟨process_job_fail base now j code out err s hc hgj, ?_, ?_, ?_, ?_⟩
  · unfold fail_step
    by_cases hmax : j.max_retries ≤ j.attempts + 1
    · rw [if_pos hmax, if_pos hmax]
    · rw [if_neg hmax, if_neg hmax]
  · intro hmax
    unfold fail_step
    rw [if_neg hmax]
    exact ⟨rfl, rfl⟩
  · obtain ⟨m, rfl⟩ : ∃ m, N = m + 1 := ⟨N - 1, by omega⟩
    have hcnt := consecutiveFailures_counts base now out err m j
    unfold consecutiveFailures fail_step
    rw [if_pos (by rw [hcnt.1, hcnt.2, ha, hm]; omega)]
  · obtain ⟨m, rfl⟩ : ∃ m, N = m + 1 := ⟨N - 1, by omega⟩
    have hcnt := consecutiveFailures_counts base now out err m j
    unfold consecutiveFailures fail_step
    rw [if_pos (by rw [hcnt.1, hcnt.2, ha, hm]; omega)]
    show (consecutiveFailures base now out err m j).attempts + 1 = m + 1
    rw [hcnt.1, ha]
    omega

/-- C3 counterexample: with `max_retries = N = 0`, after `N`
consecutive execution failures the job row is untouched and still
`pending`, not `dead`. -/
theorem failureEscalation_counterexample :
    wJobZero.max_retries = 0 ∧
    consecutiveFailures 2 10 "" "boom" 0 wJobZero = wJobZero ∧
    ¬ (consecutiveFailures 2 10 "" "boom" 0 wJobZero).state = JobState.dead :=
  ⟨rfl, rfl, by decide⟩

theorem failureEscalation_witness :
    (consecutiveFailures 2 10 "" "boom" 2 wJobTwo).state = JobState.dead ∧
    (consecutiveFailures 2 10 "" "boom" 2 wJobTwo).attempts = 2 :=
  ⟨(failureEscalation 2 10 2 wJobTwo 1 "" "boom" [wJobTwo] (by decide)
      (by decide) (by decide) rfl rfl).2.2.2.1,
   (failureEscalation 2 10 2 wJobTwo 1 "" "boom" [wJobTwo] (by decide)
      (by decide) (by decide) rfl rfl).2.2.2.2⟩

/-- C1 (failing trace): with one eligible pending job, the legal
interleaving read₁, read₂, write₁, write₂ — possible because selection
and the processing update are separate store operations — makes both
workers claim job "r1": both reads return the same job id. -/
theorem claimNext_race :
    (runRace 5 [RaceStep.read1, RaceStep.read2, RaceStep.write1,
        RaceStep.write2] ⟨[wJobRace], none, none⟩).claimed1 = some wJobRace ∧
    (runRace 5 [RaceStep.read1, RaceStep.read2, RaceStep.write1,
        RaceStep.write2] ⟨[wJobRace], none, none⟩).claimed2 = some wJobRace ∧
    wJobRace.id = "r1" := by
  refine ⟨?_, ?_, rfl⟩ <;> rfl

/-! ### C4: failed jobs are never returned to pending -/
/-- C4 (refutation of the re-queue path): a `failed` job whose
`next_retry_at` has elapsed is untouchable: `get_next_pending_job`
never selects it (it only ever selects `pending` rows), the reaper
leaves its row unchanged, and the DLQ requeue refuses it because it is
not `dead`.  No operation of the code returns it to `pending`. -/
theorem failedJobStuck (now : Nat) (s : Store) (j : Job) (hj : j ∈ s)
    (hf : j.state = JobState.failed)
    (helapsed : ∀ t, j.next_retry_at = some t → t ≤ now) :
    (∀ k, get_next_pending_job now s = some k → k.state = JobState.pending) ∧
    ¬ get_next_pending_job now s = some j ∧
    j ∈ cleanup_stale_jobs s ∧
    (∀ k, get_job s j.id = some k → k.state = JobState.failed →
      dlq_retry now s j.id = (s, DlqStatus.notInDLQ)) := by
  have hpend : ∀ k, get_next_pending_job now s = some k →
      k.state = JobState.pending := by
    intro k hk
    obtain ⟨_, helig, _⟩ := get_next_pending_job_some hk
    exact ((isEligible_iff now k).mp helig).1
  refine ⟨hpend, ?_, ?_, ?_⟩
  · intro heq
    have := hpend j heq
    rw [hf] at this
    exact JobState.noConfusion this
  · have hr : reapOne j = j := by
      unfold reapOne
      rw [if_neg (by rw [hf]; exact fun h => JobState.noConfusion h)]
    exact hr ▸ List.mem_map_of_mem reapOne hj
  · intro k hk hkf
    simp only [dlq_retry, hk]
    rw [if_neg (by rw [hkf]; exact fun h => JobState.noConfusion h)]

theorem failedJobStuck_witness :
    ¬ get_next_pending_job 10 [wJobFailed] = some wJobFailed ∧
    wJobFailed ∈ cleanup_stale_jobs [wJobFailed] ∧
    dlq_retry 10 [wJobFailed] wJobFailed.id =
      ([wJobFailed], DlqStatus.notInDLQ) :=
  ⟨(failedJobStuck 10 [wJobFailed] wJobFailed (by decide) rfl
      (by decide)).2.1,
   (failedJobStuck 10 [wJobFailed] wJobFailed (by decide) rfl
      (by decide)).2.2.1,
   (failedJobStuck 10 [wJobFailed] wJobFailed (by decide) rfl
      (by decide)).2.2.2 wJobFailed rfl rfl⟩

/-! ### C5: reachable stores and the `next_retry_at` invariant -/
theorem map_id_of_preserves {f : Job → Job} (hf : ∀ j, (f j).id = j.id)
    (s : Store) : (s.map f).map Job.id = s.map Job.id := by
  rw [List.map_map]
  apply List.map_congr_left
  intro j _
  exact hf j

theorem update_job_map_id (s : Store) (jid : String) {f : Job → Job}
    (hf : ∀ j, (f j).id = j.id) :
    (update_job s jid f).map Job.id = s.map Job.id := by
  unfold update_job
  apply map_id_of_preserves
  intro j
  by_cases hj : j.id = jid
  · rw [if_pos hj, hf]
  · rw [if_neg hj]

theorem get_job_eq_none_iff (s : Store) (jid : String) :
    get_job s jid = none ↔ ∀ j ∈ s, ¬ j.id = jid := by
  induction s with
  | nil => simp [get_job]
  | cons a l ih =>
    simp only [get_job, List.mem_cons]
    by_cases ha : a.id = jid
    · rw [if_pos ha]
      constructor
      · intro h; exact absurd h (by simp)
      · intro h; exact absurd ha (h a (Or.inl rfl))
    · rw [if_neg ha, ih]
      constructor
      · intro h j hj
        rcases hj with rfl | hj
        · exact ha
        · exact h j hj
      · intro h j hj
        exact h j (Or.inr hj)

theorem get_job_mem {s : Store} {jid : String} {j : Job}
    (h : get_job s jid = some j) : j ∈ s ∧ j.id = jid := by
  induction s with
  | nil => exact absurd h (by simp [get_job])
  | cons a l ih =>
    simp only [get_job] at h
    by_cases ha : a.id = jid
    · rw [if_pos ha] at h
      obtain rfl : a = j := by simpa using h
      exact ⟨List.mem_cons_self a l, ha⟩
    · rw [if_neg ha] at h
      obtain ⟨hm, hid⟩ := ih h
      exact ⟨List.mem_cons_of_mem a hm, hid⟩

theorem reapOne_id (j : Job) : (reapOne j).id = j.id := by
  unfold reapOne
  by_cases h : j.state = JobState.processing
  · rw [if_pos h]
    by_cases hm : j.max_retries ≤ j.attempts
    · rw [if_pos hm]
    · rw [if_neg hm]
  · rw [if_neg h]

theorem reapOne_next_retry_at (j : Job) :
    (reapOne j).next_retry_at = j.next_retry_at := by
  unfold reapOne
  by_cases h : j.state = JobState.processing
  · rw [if_pos h]
    by_cases hm : j.max_retries ≤ j.attempts
    · rw [if_pos hm]
    · rw [if_neg hm]
  · rw [if_neg h]

/-- Every `process_job` call is one patch of the row(s) keyed by the
claimed job's id; the patch preserves the id, and on a row whose
`next_retry_at` is unset it either leaves it unset or writes the
`failed` state along with it. -/
theorem process_job_exited_shape (base now : Nat) (job : Job) (code : Int)
    (out err : String) (s : Store) :
    ∃ F : Job → Job,
      process_job base now job (ExecOutcome.exited code out err) s =
        update_job s job.id F ∧
      (∀ k, (F k).id = k.id) ∧
      (∀ k, k.next_retry_at = none →
        ((F k).next_retry_at = none ∨ (F k).state = JobState.failed)) := by
  by_cases hc : code = 0
  · refine ⟨fun k =>
      { k with state := JobState.completed, attempts := job.attempts + 1,
               output := some out.trim, updated_at := now },
      ?_, fun k => rfl, fun k hk => Or.inl hk⟩
    have heq : process_job base now job (ExecOutcome.exited code out err) s =
        update_job (update_job s job.id (fun k =>
          { k with state := JobState.processing,
                   attempts := job.attempts + 1, updated_at := now }))
          job.id (fun k =>
          { k with state := JobState.completed, output := some out.trim,
                   updated_at := now }) := by
      simp only [process_job, execute_command, markProcessing]
      rw [if_pos hc]
    rw [heq, update_job_update_job]
    intro k
    rfl
  · by_cases hm : job.max_retries ≤ job.attempts + 1
    · refine ⟨fun k =>
        { k with state := JobState.dead, attempts := job.attempts + 1,
                 last_error := some (errOrUnknown err), output := some out,
                 updated_at := now },
        ?_, fun k => rfl, fun k hk => Or.inl hk⟩
      have heq : process_job base now job (ExecOutcome.exited code out err) s =
          update_job (update_job s job.id (fun k =>
            { k with state := JobState.processing,
                     attempts := job.attempts + 1, updated_at := now }))
            job.id (fun k =>
            { k with state := JobState.dead,
                     last_error := some (errOrUnknown err),
                     output := some out, updated_at := now }) := by
        simp only [process_job, execute_command, markProcessing]
        rw [if_neg hc, if_pos hm]
      rw [heq, update_job_update_job]
      intro k
      rfl
    · refine ⟨fun k =>
        { k with state := JobState.failed, attempts := job.attempts + 1,
                 last_error := some (errOrUnknown err),
                 next_retry_at :=
                   some (calculate_next_retry base now (job.attempts + 1)),
                 output := some out, updated_at := now },
        ?_, fun k => rfl, fun k hk => Or.inr rfl⟩
      have heq : process_job base now job (ExecOutcome.exited code out err) s =
          update_job (update_job s job.id (fun k =>
            { k with state := JobState.processing,
                     attempts := job.attempts + 1, updated_at := now }))
            job.id (fun k =>
            { k with state := JobState.failed, attempts := job.attempts + 1,
                     last_error := some (errOrUnknown err),
                     next_retry_at :=
                       some (calculate_next_retry base now (job.attempts + 1)),
                     output := some out, updated_at := now }) := by
        simp only [process_job, execute_command, markProcessing]
        rw [if_neg hc, if_neg hm]
      rw [heq, update_job_update_job]
      intro k
      rfl

theorem process_job_shape (base now : Nat) (job : Job) (o : ExecOutcome)
    (s : Store) :
    ∃ F : Job → Job,
      process_job base now job o s = update_job s job.id F ∧
      (∀ k, (F k).id = k.id) ∧
      (∀ k, k.next_retry_at = none →
        ((F k).next_retry_at = none ∨ (F k).state = JobState.failed)) := by
  cases o with
  | exited code out err => exact process_job_exited_shape base now job code out err s
  | timedOut => exact process_job_exited_shape base now job (-1) "" "Job timed out" s
  | spawnError msg => exact process_job_exited_shape base now job (-1) "" msg s

theorem inv_nil : Inv [] := by
  constructor
  · exact List.nodup_nil
  · intro j hj
    exact absurd hj (List.not_mem_nil j)

theorem inv_step {s s' : Store} (h : Step s s') (hi : Inv s) : Inv s' := by
  cases h with
  | enqueue_op id now cmd mr ra pr tmo s h =>
    constructor
    · unfold enqueue
      rw [List.map_append]
      rw [List.nodup_append]
      refine ⟨hi.1, by simp, ?_⟩
      intro x hx
      simp only [List.map_cons, List.map_nil, List.mem_singleton]
      obtain ⟨a, ha, rfl⟩ := List.mem_map.mp hx
      intro hax
      exact ((get_job_eq_none_iff s id).mp h a ha) (by simpa using hax)
    · intro j hj hnra
      rcases List.mem_append.mp hj with hj | hj
      · exact hi.2 j hj hnra
      · obtain rfl : j = Job.new id now cmd mr ra pr tmo := by simpa using hj
        exact absurd rfl hnra
  | work_op base now o j s h =>
    obtain ⟨hmem, helig, _⟩ := get_next_pending_job_some h
    have hpend := ((isEligible_iff now j).mp helig).1
    obtain ⟨F, heq, hfid, hfprop⟩ := process_job_shape base now j o s
    rw [heq]
    constructor
    · exact (update_job_map_id s j.id hfid).symm ▸ hi.1
    · intro k hk hnra
      obtain ⟨a, ha, hka⟩ := mem_update_job hk
      by_cases haid : a.id = j.id
      · rw [if_pos haid] at hka
        have haj : a = j := List.inj_on_of_nodup_map hi.1 ha hmem haid
        have hanone : a.next_retry_at = none := by
          by_cases hcon : a.next_retry_at = none
          · exact hcon
          · have := hi.2 a ha hcon
            rw [haj, hpend] at this
            exact absurd this (by intro hx; exact JobState.noConfusion hx)
        rcases hfprop a hanone with hnone | hfail
        · rw [hka] at hnra
          exact absurd hnone hnra
        · rw [hka]
          exact hfail
      · rw [if_neg haid] at hka
        rw [hka] at hnra ⊢
        exact hi.2 a ha hnra
  | reap_op s =>
    constructor
    · unfold cleanup_stale_jobs
      exact (map_id_of_preserves reapOne_id s).symm ▸ hi.1
    · intro k hk hnra
      obtain ⟨a, ha, hka⟩ := List.mem_map.mp hk
      have hnext : k.next_retry_at = a.next_retry_at := by
        rw [← hka, reapOne_next_retry_at]
      have hfa : a.state = JobState.failed := hi.2 a ha (hnext ▸ hnra)
      have hka' : reapOne a = a := by
        unfold reapOne
        rw [if_neg (by rw [hfa]; exact fun hx => JobState.noConfusion hx)]
      rw [← hka, hka', hfa]
  | dlq_op now jid s =>
    cases hg : get_job s jid with
    | none =>
      have : (dlq_retry now s jid).1 = s := by
        simp only [dlq_retry, hg]
      rw [this]
      exact hi
    | some job =>
      by_cases hdead : job.state = JobState.dead
      · have hd : (dlq_retry now s jid).1 = update_job s jid (fun k =>
            { k with state := JobState.pending, attempts := 0,
                     last_error := none, updated_at := now }) := by
          simp only [dlq_retry, hg, if_pos hdead]
        rw [hd]
        obtain ⟨hjm, hjid⟩ := get_job_mem hg
        constructor
        · exact (@update_job_map_id s jid (fun k =>
            { k with state := JobState.pending, attempts := 0,
                     last_error := none, updated_at := now })
            (fun k => rfl)).symm ▸ hi.1
        · intro k hk hnra
          obtain ⟨a, ha, hka⟩ := mem_update_job hk
          by_cases haid : a.id = jid
          · rw [if_pos haid] at hka
            have haj : a = job :=
              List.inj_on_of_nodup_map hi.1 ha hjm (by rw [haid, hjid])
            have hanone : a.next_retry_at = none := by
              by_cases hcon : a.next_retry_at = none
              · exact hcon
              · have := hi.2 a ha hcon
                rw [haj, hdead] at this
                exact absurd this (by intro hx; exact JobState.noConfusion hx)
            rw [hka] at hnra
            exact absurd hanone hnra
          · rw [if_neg haid] at hka
            rw [hka] at hnra ⊢
            exact hi.2 a ha hnra
      · have : (dlq_retry now s jid).1 = s := by
          simp only [dlq_retry, hg, if_neg hdead]
        rw [this]
        exact hi

/-- C5 amended: on every store reached by SERIALIZED core operations,
`next_retry_at` is set only on `failed` rows (so pending rows carry
none), and the DLQ requeue of a dead job always yields a `pending` row
with `next_retry_at = none`.  This does NOT hold of the program's
actual interleaved execution: the non-atomic claim path lets two
workers run overlapping cycles on one job, and the stale cycle's
PROCESSING and COMPLETED updates never clear `next_retry_at` (see the
counterexample trace below). -/
theorem nextRetryInvariant (s : Store) (hs : Reachable s) :
    (∀ j ∈ s, j.next_retry_at ≠ none → j.state = JobState.failed) ∧
    (∀ j ∈ s, j.state = JobState.pending → j.next_retry_at = none) ∧
    (∀ now jid j, get_job s jid = some j → j.state = JobState.dead →
      ∀ k, get_job (dlq_retry now s jid).1 jid = some k →
        k.state = JobState.pending ∧ k.next_retry_at = none) := by
  have hi : Inv s := by
    induction hs with
    | refl => exact inv_nil
    | tail _ hr ih => exact inv_step hr ih
  refine ⟨hi.2, ?_, ?_⟩
  · intro j hj hpend
    by_cases hcon : j.next_retry_at = none
    · exact hcon
    · have := hi.2 j hj hcon
      rw [hpend] at this
      exact absurd this (by intro hx; exact JobState.noConfusion hx)
  · intro now jid j hg hdead k hk
    have hd : (dlq_retry now s jid).1 = update_job s jid (fun a =>
        { a with state := JobState.pending, attempts := 0,
                 last_error := none, updated_at := now }) := by
      simp only [dlq_retry, hg, if_pos hdead]
    rw [hd, get_job_update_job jid (fun a =>
        { a with state := JobState.pending, attempts := 0,
                 last_error := none, updated_at := now }) (fun a => rfl) s,
      hg] at hk
    obtain rfl : _ = k := by simpa using hk
    refine ⟨rfl, ?_⟩
    show j.next_retry_at = none
    by_cases hcon : j.next_retry_at = none
    · exact hcon
    · have := hi.2 j (get_job_mem hg).1 hcon
      rw [hdead] at this
      exact absurd this (by intro hx; exact JobState.noConfusion hx)

theorem wStoreReach_reachable : Reachable wStoreReach :=
  Relation.ReflTransGen.tail
    (Relation.ReflTransGen.tail Relation.ReflTransGen.refl
      (Step.enqueue_op "a1" 0 "exit 1" 3 none 0 none [] rfl))
    (Step.work_op 2 10 (ExecOutcome.exited 1 "" "boom") wJobA
      (enqueue "a1" 0 "exit 1" 3 none 0 none []) (by decide))

theorem nextRetryInvariant_witness :
    (fail_step 2 10 "" "boom" wJobA).state = JobState.failed :=
  (nextRetryInvariant wStoreReach wStoreReach_reachable).1
    (fail_step 2 10 "" "boom" wJobA) (by decide) (by decide)

/-- C5 counterexample: the non-atomic claim path lets two workers hold
the same pending job "c1" (the read-read interleaving of the race
trace).  Worker A's full cycle fails the job, writing `failed` with
`next_retry_at = 12`; worker B's cycle then proceeds with its stale
pending snapshot: its PROCESSING update (worker.py:69) does not touch
`next_retry_at`, and its exit-0 COMPLETED update (worker.py:80) does
not either.  The program thus reaches a `processing` record and then a
`completed` record that still carry `next_retry_at = 12`, refuting
"next_retry_at is set only while state == failed" for records the
interleaved execution reaches. -/
theorem nextRetryInvariant_counterexample :
    ((get_job (markProcessing 20 wJobC
        (process_job 2 10 wJobC (ExecOutcome.exited 1 "" "boom") [wJobC]))
        "c1").map Job.state = some JobState.processing) ∧
    ((get_job (markProcessing 20 wJobC
        (process_job 2 10 wJobC (ExecOutcome.exited 1 "" "boom") [wJobC]))
        "c1").map Job.next_retry_at = some (some 12)) ∧
    ((get_job (process_job 2 20 wJobC (ExecOutcome.exited 0 "ok" "")
        (process_job 2 10 wJobC (ExecOutcome.exited 1 "" "boom") [wJobC]))
        "c1").map Job.state = some JobState.completed) ∧
    ((get_job (process_job 2 20 wJobC (ExecOutcome.exited 0 "ok" "")
        (process_job 2 10 wJobC (ExecOutcome.exited 1 "" "boom") [wJobC]))
        "c1").map Job.next_retry_at = some (some 12)) := by
  decide

end QueueCLI
